import Mathlib

/-!
A shallow embedding of the MIRAI integration-test harness
(`tests/integration_tests.rs`): the expectation parser, the removal-based
diagnostic matcher (`ExpectedErrors`), the per-case driver invocation, the
parallel fold/reduce aggregation of `run_directory`, and case discovery.
Strings are modelled as lists of characters; panics raised by the matching
step are modelled as `Except` errors; the front-end is opaque and modelled
by its observable outcome (a crash or a list of diagnostics).
-/

namespace MiraiTests

/-- Strings are modelled as lists of characters. -/
abbrev Str := List Char

/-- One diagnostic produced by the front-end: a primary message plus the
messages of its child sub-diagnostics. -/
structure Diagnostic where
  message : Str
  children : List Str
deriving DecidableEq

/-- `Vec::remove_item`: remove the first element equal to `msg` and return
the remaining list, or `none` when no element is equal to `msg` (in which
case the vector is left unchanged). -/
def remove_item (messages : List Str) (msg : Str) : Option (List Str) :=
  match messages with
  | [] => none
  | m :: rest =>
    if m = msg then some rest
    else (remove_item rest msg).map (fun r => m :: r)

/-- The failure conditions raised (as panics) by the matching step of
`ExpectedErrors`: an unexpected diagnostic, carrying the offending message
and the remaining expected bag, or expected messages that were never
reported, carrying the remaining bag. -/
inductive CheckError where
  | unexpected (msg : Str) (remaining : List Str)
  | notReported (remaining : List Str)
deriving DecidableEq

/-- `ExpectedErrors::remove_message`: remove one occurrence of `msg` from
the expected bag, or fail with the `unexpected` condition carrying `msg`
and the (unchanged) remaining bag. -/
def remove_message (messages : List Str) (msg : Str) : Except CheckError (List Str) :=
  match remove_item messages msg with
  | none => Except.error (CheckError.unexpected msg messages)
  | some rest => Except.ok rest

/-- The messages of one diagnostic in the order `check_messages` visits
them: the top-level message first, then each child message. -/
def diag_msgs (d : Diagnostic) : List Str :=
  d.message :: d.children

/-- All messages produced by a list of diagnostics, in matching order. -/
def diag_messages (ds : List Diagnostic) : List Str :=
  ds.flatMap diag_msgs

/-- The removal loop of `ExpectedErrors::check_messages`: remove each
produced message from the expected bag in order, stopping at the first
failure. -/
def process_messages (messages : List Str) (produced : List Str) : Except CheckError (List Str) :=
  match produced with
  | [] => Except.ok messages
  | msg :: rest =>
    match remove_message messages msg with
    | Except.error e => Except.error e
    | Except.ok remaining => process_messages remaining rest

/-- `ExpectedErrors::check_messages`: remove every produced message
(top-level and children, in order) from the expected bag, then fail with
the `notReported` condition if the bag is non-empty. -/
def check_messages (messages : List Str) (diagnostics : List Diagnostic) : Except CheckError Unit :=
  match process_messages messages (diag_messages diagnostics) with
  | Except.error e => Except.error e
  | Except.ok remaining =>
    if remaining.length > 0 then Except.error (CheckError.notReported remaining)
    else Except.ok ()

/-- `str::find`: the index of the first occurrence of `pat` as a
contiguous subsequence of `line`, if any. -/
def find_substr (line pat : Str) : Option Nat :=
  if pat.isPrefixOf line then some 0
  else
    match line with
    | [] => none
    | _ :: rest => (find_substr rest pat).map (fun i => i + 1)

/-- `str::trim`: drop leading and trailing whitespace. -/
def trim (s : Str) : Str :=
  ((s.dropWhile Char.isWhitespace).reverse.dropWhile Char.isWhitespace).reverse

/-- `parse_expected`: the trimmed text following the first occurrence of
`tag` in `line`, if `tag` occurs in `line`. -/
def parse_expected (line tag : Str) : Option Str :=
  (find_substr line tag).map (fun start => trim (line.drop (start + tag.length)))

/-- The marker token `"//~"` used by `load_errors`. -/
def marker : Str := ['/', '/', '~']

/-- `load_errors`: scan the fragment (given as its list of lines) and
collect every message returned by `parse_expected`, in file order. -/
def load_errors (lines : List Str) : List Str :=
  lines.filterMap (fun line => parse_expected line marker)

/-- The observable outcome of one front-end invocation: an abnormal
termination anywhere inside the invocation, or normal completion with a
buffer of produced diagnostics handed to the matching step. -/
inductive FrontEndOutcome where
  | crash
  | diagnostics (ds : List Diagnostic)
deriving DecidableEq

/-- The text appended to the fragment path by the per-case failure report
`println!("{} failed", f_name)`. -/
def failed_suffix : Str := [' ', 'f', 'a', 'i', 'l', 'e', 'd']

/-- `invoke_driver`: run one case. A crash inside the front-end invocation
or the matching step is caught by `catch_unwind` and yields `1` together
with the failure line printed to standard output; a fully matched run
yields `0` and prints nothing. The returned pair is (result code, printed
lines). -/
def invoke_driver (file_name : Str) (fragment_lines : List Str)
    (outcome : FrontEndOutcome) : Nat × List Str :=
  match outcome with
  | FrontEndOutcome.crash => (1, [file_name ++ failed_suffix])
  | FrontEndOutcome.diagnostics ds =>
    match check_messages (load_errors fragment_lines) ds with
    | Except.ok _ => (0, [])
    | Except.error _ => (1, [file_name ++ failed_suffix])

/-- One discovered test case: the fragment (path and contents) together
with the outcome its front-end invocation would produce. -/
structure TestCase where
  file_name : Str
  fragment_lines : List Str
  outcome : FrontEndOutcome
deriving DecidableEq

/-- The result code of one case. -/
def case_result (c : TestCase) : Nat :=
  (invoke_driver c.file_name c.fragment_lines c.outcome).1

/-- The rayon `fold` step of `run_directory`: one worker folds its chunk of
cases, starting its partial sum at `0` and adding each case's result. -/
def worker_fold (chunk : List TestCase) : Nat :=
  chunk.foldl (fun acc c => acc + case_result c) 0

/-- The rayon `reduce` step of `run_directory`: combine the workers'
partial sums, starting at `0`. -/
def worker_reduce (sums : List Nat) : Nat :=
  sums.foldl (fun acc code => acc + code) 0

/-- The command line assembled by `invoke_driver` for the front-end. -/
def command_line_arguments (file_name temp_dir_path sys_root : String) : List String :=
  ["--crate-name mirai", file_name, "--crate-type", "lib",
   "-C", "debuginfo=2", "--out-dir", temp_dir_path, "--sysroot", sys_root,
   "-Z", "span_free_formats", "-Z", "mir-emit-retag", "-Z", "mir-opt-level=0"]

/-- One entry of the scanned directory, as seen by `run_directory`. -/
structure DirEntry where
  file_name : String
  is_file : Bool
deriving DecidableEq

/-- The file-system effects available to the discovery loop of
`run_directory`: reading the directory, creating a fresh temporary
directory (`TempDir::new`), and creating the nested output directory. A
`none`/`false` answer models the corresponding I/O failure. -/
structure FsEnv where
  read_dir : Option (List DirEntry)
  new_temp_dir : String → Option String
  create_dir_ok : String → Bool

/-- The setup failures that abort the whole run in `run_directory` (each
is an `expect`/`unwrap` panic outside any `catch_unwind`). -/
inductive SetupError where
  | readDirFailed
  | tempDirFailed
  | createDirFailed
deriving DecidableEq

/-- The discovery loop of `run_directory`: walk the entries in order,
skip non-files, and for each file create a temporary directory and a
nested output directory named after the fragment file; the produced case
is (fragment path, output directory path). Any failure aborts. -/
def discover_cases (dir_path : String) (env : FsEnv) :
    List DirEntry → Except SetupError (List (String × String))
  | [] => Except.ok []
  | e :: rest =>
    if e.is_file then
      match env.new_temp_dir e.file_name with
      | none => Except.error SetupError.tempDirFailed
      | some td =>
        if env.create_dir_ok (td ++ "/" ++ e.file_name) then
          (discover_cases dir_path env rest).map
            (fun cases => (dir_path ++ "/" ++ e.file_name, td ++ "/" ++ e.file_name) :: cases)
        else Except.error SetupError.createDirFailed
    else discover_cases dir_path env rest

/-- The setup phase of `run_directory`: read the directory and run the
discovery loop. -/
def run_directory_setup (dir_path : String) (env : FsEnv) :
    Except SetupError (List (String × String)) :=
  match env.read_dir with
  | none => Except.error SetupError.readDirFailed
  | some entries => discover_cases dir_path env entries

/-- The temporary directory the environment would allocate for a file,
defaulting to the empty path when allocation fails. -/
def temp_dir_of (env : FsEnv) (name : String) : String :=
  match env.new_temp_dir name with
  | some td => td
  | none => ""

/-! ### Helper lemmas about the matcher -/

theorem remove_item_not_mem (l : List Str) (a : Str) (h : a ∉ l) :
    remove_item l a = none := by
  induction l with
  | nil => rfl
  | cons b t ih =>
    have hba : ¬b = a := fun hc => h (hc ▸ List.mem_cons_self b t)
    have hat : a ∉ t := fun hc => h (List.mem_cons_of_mem b hc)
    simp [remove_item, hba, ih hat]

theorem remove_item_mem (l : List Str) (a : Str) (h : a ∈ l) :
    ∃ pre post, l = pre ++ a :: post ∧ a ∉ pre ∧
      remove_item l a = some (pre ++ post) := by
  induction l with
  | nil => cases h
  | cons b t ih =>
    by_cases hba : b = a
    · subst hba
      exact ⟨[], t, rfl, List.not_mem_nil b, by simp [remove_item]⟩
    · have hat : a ∈ t := by
        cases List.mem_cons.mp h with
        | inl hc => exact absurd hc.symm hba
        | inr hc => exact hc
      obtain ⟨pre, post, hdec, hnp, hri⟩ := ih hat
      refine ⟨b :: pre, post, by rw [hdec]; rfl, ?_, ?_⟩
      · intro hc
        cases List.mem_cons.mp hc with
        | inl hc2 => exact hba hc2.symm
        | inr hc2 => exact hnp hc2
      · simp [remove_item, hba, hri]

theorem remove_message_not_mem (messages : List Str) (msg : Str) (h : msg ∉ messages) :
    remove_message messages msg = Except.error (CheckError.unexpected msg messages) := by
  simp [remove_message, remove_item_not_mem _ _ h]

theorem remove_item_some_cons (l : List Str) (a : Str) (rest : List Str)
    (h : remove_item l a = some rest) :
    a ::ₘ (rest : Multiset Str) = (l : Multiset Str) := by
  by_cases hm : a ∈ l
  · obtain ⟨pre, post, hdec, _, hri⟩ := remove_item_mem l a hm
    rw [hri] at h
    cases h
    rw [hdec, Multiset.cons_coe]
    exact Multiset.coe_eq_coe.mpr (List.perm_middle).symm
  · rw [remove_item_not_mem _ _ hm] at h
    cases h

theorem remove_message_ok_cons (messages : List Str) (msg : Str) (rest : List Str)
    (h : remove_message messages msg = Except.ok rest) :
    msg ::ₘ (rest : Multiset Str) = (messages : Multiset Str) := by
  unfold remove_message at h
  cases hri : remove_item messages msg with
  | none => rw [hri] at h; cases h
  | some r =>
    rw [hri] at h
    cases h
    exact remove_item_some_cons _ _ _ hri

theorem remove_message_mem_ok (messages : List Str) (msg : Str) (h : msg ∈ messages) :
    ∃ rest, remove_message messages msg = Except.ok rest ∧
      msg ::ₘ (rest : Multiset Str) = (messages : Multiset Str) := by
  obtain ⟨pre, post, _, _, hri⟩ := remove_item_mem messages msg h
  refine ⟨pre ++ post, ?_, ?_⟩
  · simp [remove_message, hri]
  · exact remove_item_some_cons _ _ _ hri

theorem process_messages_ok_multiset (produced : List Str) :
    ∀ (messages b : List Str), process_messages messages produced = Except.ok b →
      (produced : Multiset Str) + (b : Multiset Str) = (messages : Multiset Str) := by
  induction produced with
  | nil =>
    intro messages b h
    simp only [process_messages] at h
    cases h
    simp
  | cons m rest ih =>
    intro messages b h
    simp only [process_messages] at h
    cases hrm : remove_message messages m with
    | error e => rw [hrm] at h; cases h
    | ok r =>
      rw [hrm] at h
      have h2 := ih _ _ h
      have h3 : ((m :: rest : List Str) : Multiset Str) + (b : Multiset Str) =
          m ::ₘ ((rest : Multiset Str) + (b : Multiset Str)) := by
        rw [← Multiset.cons_coe, Multiset.cons_add]
      rw [h3, h2, remove_message_ok_cons _ _ _ hrm]

theorem process_messages_le_ok (produced : List Str) :
    ∀ (messages : List Str), (produced : Multiset Str) ≤ (messages : Multiset Str) →
      ∃ b, process_messages messages produced = Except.ok b := by
  induction produced with
  | nil => intro messages _; exact ⟨messages, rfl⟩
  | cons m rest ih =>
    intro messages hle
    rw [← Multiset.cons_coe] at hle
    have hm : m ∈ messages := by
      have hmem : m ∈ (messages : Multiset Str) :=
        Multiset.mem_of_le hle (Multiset.mem_cons_self m _)
      simpa using hmem
    obtain ⟨r, hrm, hcons⟩ := remove_message_mem_ok messages m hm
    have hle' : (rest : Multiset Str) ≤ (r : Multiset Str) := by
      rw [← hcons] at hle
      exact (Multiset.cons_le_cons_iff m).mp hle
    obtain ⟨b, hb⟩ := ih _ hle'
    refine ⟨b, ?_⟩
    simp only [process_messages]
    rw [hrm]
    exact hb

theorem process_messages_ok_nil_iff (messages produced : List Str) :
    process_messages messages produced = Except.ok [] ↔
      (produced : Multiset Str) = (messages : Multiset Str) := by
  constructor
  · intro h
    have h1 := process_messages_ok_multiset produced messages [] h
    simpa using h1
  · intro h
    obtain ⟨b, hb⟩ := process_messages_le_ok produced messages (le_of_eq h)
    have hsum := process_messages_ok_multiset produced messages b hb
    rw [h] at hsum
    have hb0 : (b : Multiset Str) = 0 := by
      have := add_right_eq_self.mp hsum
      exact this
    have hbnil : b = [] := by simpa using hb0
    rwa [hbnil] at hb

theorem check_messages_ok_iff (messages : List Str) (ds : List Diagnostic) :
    check_messages messages ds = Except.ok () ↔
      (diag_messages ds : Multiset Str) = (messages : Multiset Str) := by
  constructor
  · intro h
    unfold check_messages at h
    cases hp : process_messages messages (diag_messages ds) with
    | error e => rw [hp] at h; cases h
    | ok remaining =>
      rw [hp] at h
      cases remaining with
      | nil => exact (process_messages_ok_nil_iff _ _).mp hp
      | cons x xs => simp at h
  · intro h
    unfold check_messages
    rw [(process_messages_ok_nil_iff messages (diag_messages ds)).mpr h]
    simp

/-! ### Claim theorems about the matching protocol -/

/-- C1: the success/failure verdict of `check_messages` is invariant under
permutation of the order in which the produced diagnostics are matched,
and matching succeeds exactly when the multiset of produced messages
(top-level plus children) equals the multiset of expected messages. -/
theorem check_messages_order_invariant (expected : List Str) (ds ds2 : List Diagnostic)
    (h : ds.Perm ds2) :
    ((check_messages expected ds = Except.ok ()) ↔
      (check_messages expected ds2 = Except.ok ())) ∧
    ((check_messages expected ds = Except.ok ()) ↔
      (diag_messages ds : Multiset Str) = (expected : Multiset Str)) := by
  have hperm : (diag_messages ds).Perm (diag_messages ds2) := h.flatMap_right diag_msgs
  have hms : (diag_messages ds : Multiset Str) = (diag_messages ds2 : Multiset Str) :=
    Multiset.coe_eq_coe.mpr hperm
  constructor
  · rw [check_messages_ok_iff, check_messages_ok_iff, hms]
  · exact check_messages_ok_iff _ _

/-- Witness for C1 at a concrete one-diagnostic input. -/
theorem check_messages_order_invariant_witness :
    (check_messages [['a']] [⟨['a'], []⟩] = Except.ok ()) ↔
      (diag_messages [⟨['a'], []⟩] : Multiset Str) = (([['a']] : List Str) : Multiset Str) :=
  (check_messages_order_invariant [['a']] [⟨['a'], []⟩] [⟨['a'], []⟩] (List.Perm.refl _)).2

/-- C5: `remove_message` removes exactly one occurrence of a present
message (the first one, leaving every other element of the bag unchanged
and in order) and succeeds; on an absent message it fails with the
`unexpected` condition carrying the offending message and the unchanged
remaining bag. -/
theorem remove_message_spec (messages : List Str) (msg : Str) :
    (msg ∈ messages →
      ∃ pre post, messages = pre ++ msg :: post ∧ msg ∉ pre ∧
        remove_message messages msg = Except.ok (pre ++ post) ∧
        msg ::ₘ ((pre ++ post : List Str) : Multiset Str) = (messages : Multiset Str)) ∧
    (msg ∉ messages →
      remove_message messages msg = Except.error (CheckError.unexpected msg messages)) := by
  constructor
  · intro h
    obtain ⟨pre, post, hdec, hnp, hri⟩ := remove_item_mem messages msg h
    have hok : remove_message messages msg = Except.ok (pre ++ post) := by
      simp [remove_message, hri]
    exact ⟨pre, post, hdec, hnp, hok, remove_message_ok_cons _ _ _ hok⟩
  · exact remove_message_not_mem _ _

/-- Witness for C5 at concrete inputs: one present message, one absent. -/
theorem remove_message_spec_witness :
    (∃ pre post, ([['a'], ['b']] : List Str) = pre ++ ['b'] :: post ∧ ['b'] ∉ pre ∧
        remove_message [['a'], ['b']] ['b'] = Except.ok (pre ++ post) ∧
        ['b'] ::ₘ ((pre ++ post : List Str) : Multiset Str) =
          (([['a'], ['b']] : List Str) : Multiset Str)) ∧
    remove_message [['a']] ['b'] = Except.error (CheckError.unexpected ['b'] [['a']]) :=
  ⟨(remove_message_spec [['a'], ['b']] ['b']).1 (by decide),
   (remove_message_spec [['a']] ['b']).2 (by decide)⟩

/-- C6: once every produced message has been removed successfully, leaving
the bag `b`, `check_messages` fails with the `notReported` condition
carrying `b` exactly when `b` is non-empty, and succeeds exactly when `b`
is empty. -/
theorem check_messages_exhaustion (expected : List Str) (ds : List Diagnostic) (b : List Str)
    (h : process_messages expected (diag_messages ds) = Except.ok b) :
    check_messages expected ds =
      (if b.isEmpty then Except.ok () else Except.error (CheckError.notReported b)) ∧
    (check_messages expected ds = Except.ok () ↔ b = []) ∧
    (check_messages expected ds = Except.error (CheckError.notReported b) ↔ b ≠ []) := by
  unfold check_messages
  rw [h]
  cases b with
  | nil => simp
  | cons x xs => simp

/-- Witness for C6: no diagnostics produced, one expected message left. -/
theorem check_messages_exhaustion_witness :
    check_messages [['a']] [] =
      (if ([['a']] : List Str).isEmpty then Except.ok ()
       else Except.error (CheckError.notReported [['a']])) :=
  (check_messages_exhaustion [['a']] [] [['a']] rfl).1

/-! ### Claim theorems about the per-case driver and aggregation -/

/-- C2: `invoke_driver` returns only `0` or `1`; it returns `0` exactly
when the front-end ran and every produced diagnostic matched an
expectation with none left over; on result `1` the fragment path followed
by " failed" is printed to standard output, and on result `0` nothing is
printed. -/
theorem invoke_driver_result_spec (file_name : Str) (fragment_lines : List Str)
    (outcome : FrontEndOutcome) :
    ((invoke_driver file_name fragment_lines outcome).1 = 0 ∨
      (invoke_driver file_name fragment_lines outcome).1 = 1) ∧
    ((invoke_driver file_name fragment_lines outcome).1 = 0 ↔
      ∃ ds, outcome = FrontEndOutcome.diagnostics ds ∧
        check_messages (load_errors fragment_lines) ds = Except.ok ()) ∧
    ((invoke_driver file_name fragment_lines outcome).1 = 1 →
      (invoke_driver file_name fragment_lines outcome).2 = [file_name ++ failed_suffix]) ∧
    ((invoke_driver file_name fragment_lines outcome).1 = 0 →
      (invoke_driver file_name fragment_lines outcome).2 = []) := by
  cases outcome with
  | crash => simp [invoke_driver]
  | diagnostics ds =>
    cases hc : check_messages (load_errors fragment_lines) ds with
    | ok u =>
      cases u
      refine ⟨Or.inl (by simp [invoke_driver, hc]), ?_, ?_, ?_⟩ <;> simp [invoke_driver, hc]
    | error e =>
      refine ⟨Or.inr (by simp [invoke_driver, hc]), ?_, ?_, ?_⟩ <;> simp [invoke_driver, hc]

/-- Witness for C2: a crashing case prints the failure line. -/
theorem invoke_driver_result_spec_witness :
    (invoke_driver ['t'] [] FrontEndOutcome.crash).2 = [['t'] ++ failed_suffix] :=
  (invoke_driver_result_spec ['t'] [] FrontEndOutcome.crash).2.2.1 rfl

theorem worker_fold_eq_sum_aux (l : List TestCase) :
    ∀ n : Nat, l.foldl (fun acc c => acc + case_result c) n =
      n + (l.map case_result).sum := by
  induction l with
  | nil => intro n; simp
  | cons c t ih =>
    intro n
    simp only [List.foldl_cons, List.map_cons, List.sum_cons, ih (n + case_result c)]
    omega

theorem worker_fold_eq_sum (l : List TestCase) :
    worker_fold l = (l.map case_result).sum := by
  simpa using worker_fold_eq_sum_aux l 0

theorem worker_reduce_eq_sum_aux (l : List Nat) :
    ∀ n : Nat, l.foldl (fun acc code => acc + code) n = n + l.sum := by
  induction l with
  | nil => intro n; simp
  | cons c t ih =>
    intro n
    simp only [List.foldl_cons, List.sum_cons, ih (n + c)]
    omega

theorem worker_reduce_eq_sum (l : List Nat) : worker_reduce l = l.sum := by
  simpa using worker_reduce_eq_sum_aux l 0

theorem case_result_zero_or_one (c : TestCase) :
    case_result c = 0 ∨ case_result c = 1 := by
  cases h : c.outcome with
  | crash => exact Or.inr (by simp [case_result, invoke_driver, h])
  | diagnostics ds =>
    cases hc : check_messages (load_errors c.fragment_lines) ds with
    | ok u => exact Or.inl (by simp [case_result, invoke_driver, h, hc])
    | error e => exact Or.inr (by simp [case_result, invoke_driver, h, hc])

theorem sum_case_result_eq_countP (l : List TestCase) :
    (l.map case_result).sum = l.countP (fun c => case_result c == 1) := by
  induction l with
  | nil => rfl
  | cons c t ih =>
    simp only [List.map_cons, List.sum_cons, List.countP_cons, ih]
    cases case_result_zero_or_one c with
    | inl h0 => simp [h0]
    | inr h1 => simp [h1]; omega

/-- C3: a crash inside one case's invocation is converted into that case's
result `1` by the `catch_unwind` boundary, and in a sequential run of the
whole suite a crashing case contributes exactly `1` while every sibling
case contributes its own result unchanged. -/
theorem invoke_driver_crash_containment (file_name : Str) (fragment_lines : List Str)
    (pre post : List TestCase) :
    case_result ⟨file_name, fragment_lines, FrontEndOutcome.crash⟩ = 1 ∧
    worker_fold (pre ++ ⟨file_name, fragment_lines, FrontEndOutcome.crash⟩ :: post) =
      worker_fold pre + 1 + worker_fold post ∧
    worker_fold (pre ++ post) = worker_fold pre + worker_fold post := by
  refine ⟨rfl, ?_, ?_⟩
  · simp [worker_fold_eq_sum, List.map_append, List.sum_append, case_result, invoke_driver]
    omega
  · simp [worker_fold_eq_sum, List.map_append, List.sum_append]

/-- C4: for any partition of the case list into worker chunks (joined in
any order) and any order of combining the partial sums, the fold/reduce
aggregation of `run_directory` equals the number of cases whose result is
`1`, which is also the result of folding all cases sequentially. -/
theorem run_directory_aggregation (cases : List TestCase) (chunks : List (List TestCase))
    (sums : List Nat) (h1 : chunks.flatten.Perm cases)
    (h2 : sums.Perm (chunks.map worker_fold)) :
    worker_reduce sums = cases.countP (fun c => case_result c == 1) ∧
    worker_reduce sums = worker_fold cases := by
  have key : worker_reduce sums = (cases.map case_result).sum := by
    rw [worker_reduce_eq_sum, h2.sum_eq]
    have hmap : chunks.map worker_fold = chunks.map (fun ch => (ch.map case_result).sum) :=
      List.map_congr_left (fun ch _ => worker_fold_eq_sum ch)
    rw [hmap]
    have hflat : (chunks.map (fun ch => (ch.map case_result).sum)).sum =
        (chunks.flatten.map case_result).sum := by
      rw [List.map_flatten, List.sum_flatten, List.map_map]
      rfl
    rw [hflat, (h1.map case_result).sum_eq]
  exact ⟨key.trans (sum_case_result_eq_countP cases),
    key.trans (worker_fold_eq_sum cases).symm⟩

/-- Witness for C4: two cases split across two workers in swapped order. -/
theorem run_directory_aggregation_witness :
    worker_reduce [worker_fold [⟨['b'], [], FrontEndOutcome.crash⟩],
        worker_fold [⟨['a'], [], FrontEndOutcome.diagnostics []⟩]] =
      List.countP (fun c => case_result c == 1)
        [⟨['a'], [], FrontEndOutcome.diagnostics []⟩, ⟨['b'], [], FrontEndOutcome.crash⟩] :=
  (run_directory_aggregation
    [⟨['a'], [], FrontEndOutcome.diagnostics []⟩, ⟨['b'], [], FrontEndOutcome.crash⟩]
    [[⟨['a'], [], FrontEndOutcome.diagnostics []⟩], [⟨['b'], [], FrontEndOutcome.crash⟩]]
    [worker_fold [⟨['b'], [], FrontEndOutcome.crash⟩],
     worker_fold [⟨['a'], [], FrontEndOutcome.diagnostics []⟩]]
    (by simp)
    (by simp [List.Perm.swap])).1

/-! ### Helper lemmas about the expectation parser -/

theorem find_substr_some (pat : Str) :
    ∀ (line : Str) (i : Nat), find_substr line pat = some i →
      pat <+: line.drop i ∧ ∀ j, pat <+: line.drop j → i ≤ j := by
  intro line
  induction line with
  | nil =>
    intro i h
    by_cases hp : pat.isPrefixOf ([] : Str)
    · simp only [find_substr, hp, if_true] at h
      cases h
      refine ⟨?_, fun j _ => Nat.zero_le j⟩
      rw [List.drop_nil]
      exact ( List.isPrefixOf_iff_prefix).mp hp
    · simp [find_substr, hp] at h
  | cons c rest ih =>
    intro i h
    by_cases hp : pat.isPrefixOf (c :: rest)
    · simp only [find_substr, hp, if_true] at h
      cases h
      refine ⟨?_, fun j _ => Nat.zero_le j⟩
      rw [List.drop_zero]
      exact ( List.isPrefixOf_iff_prefix).mp hp
    · rw [show find_substr (c :: rest) pat = (find_substr rest pat).map (fun i => i + 1) from
        by simp [find_substr, hp]] at h
      cases hrec : find_substr rest pat with
      | none => rw [hrec] at h; cases h
      | some i2 =>
        rw [hrec] at h
        obtain ⟨h1, h2⟩ := ih i2 hrec
        injection h with h3
        subst h3
        constructor
        · rw [List.drop_succ_cons]
          exact h1
        · intro j hj
          cases j with
          | zero =>
            exfalso
            apply hp
            rw [List.drop_zero] at hj
            exact ( List.isPrefixOf_iff_prefix).mpr hj
          | succ k =>
            rw [List.drop_succ_cons] at hj
            exact Nat.succ_le_succ (h2 k hj)

theorem find_substr_none (pat : Str) :
    ∀ (line : Str), find_substr line pat = none →
      ∀ j, ¬ pat <+: line.drop j := by
  intro line
  induction line with
  | nil =>
    intro h j hj
    rw [List.drop_nil] at hj
    by_cases hp : pat.isPrefixOf ([] : Str)
    · simp [find_substr, hp] at h
    · exact hp (( List.isPrefixOf_iff_prefix).mpr hj)
  | cons c rest ih =>
    intro h j hj
    by_cases hp : pat.isPrefixOf (c :: rest)
    · simp [find_substr, hp] at h
    · have hrec : find_substr rest pat = none := by
        rw [show find_substr (c :: rest) pat = (find_substr rest pat).map (fun i => i + 1) from
          by simp [find_substr, hp]] at h
        cases hr : find_substr rest pat with
        | none => rfl
        | some i2 => rw [hr] at h; cases h
      cases j with
      | zero =>
        rw [List.drop_zero] at hj
        exact hp (( List.isPrefixOf_iff_prefix).mpr hj)
      | succ k =>
        rw [List.drop_succ_cons] at hj
        exact ih hrec k hj

theorem decomp_occurrence (line pat pre post : Str) (h : line = pre ++ (pat ++ post)) :
    pat <+: line.drop pre.length ∧ pre.length ≤ line.length := by
  subst h
  constructor
  · rw [List.drop_left]
    exact ⟨post, rfl⟩
  · simp [List.length_append]

theorem prefix_drop_decomp (line pat : Str) (i : Nat) (hi : i ≤ line.length)
    (h : pat <+: line.drop i) :
    ∃ pre post, line = pre ++ (pat ++ post) ∧ pre.length = i := by
  obtain ⟨post, hpost⟩ := h
  refine ⟨line.take i, post, ?_, ?_⟩
  · conv_lhs => rw [← List.take_append_drop i line]
    rw [← hpost]
  · rw [List.length_take]
    exact Nat.min_eq_left hi

/-- C7: `parse_expected` returns the text following the first occurrence
of the marker, trimmed of surrounding whitespace, whenever the marker
occurs anywhere in the line, and returns nothing when the marker does not
occur. -/
theorem parse_expected_spec (line pat : Str) :
    ((∃ pre post, line = pre ++ (pat ++ post)) →
      ∃ pre post, line = pre ++ (pat ++ post) ∧
        (∀ pre2 post2, line = pre2 ++ (pat ++ post2) → pre.length ≤ pre2.length) ∧
        parse_expected line pat = some (trim post)) ∧
    ((¬ ∃ pre post, line = pre ++ (pat ++ post)) →
      parse_expected line pat = none) := by
  constructor
  · rintro ⟨pre, post, hdec⟩
    cases hf : find_substr line pat with
    | none =>
      exact absurd (decomp_occurrence line pat pre post hdec).1
        (find_substr_none pat line hf pre.length)
    | some i =>
      obtain ⟨hpref, hmin⟩ := find_substr_some pat line i hf
      have hple := decomp_occurrence line pat pre post hdec
      have hi : i ≤ line.length := le_trans (hmin pre.length hple.1) hple.2
      obtain ⟨pre0, post0, hd0, hlen0⟩ := prefix_drop_decomp line pat i hi hpref
      refine ⟨pre0, post0, hd0, ?_, ?_⟩
      · intro pre2 post2 h2
        rw [hlen0]
        exact hmin pre2.length (decomp_occurrence line pat pre2 post2 h2).1
      · have hdrop : line.drop (i + pat.length) = post0 := by
          rw [hd0, ← hlen0, ← List.drop_drop, List.drop_left, List.drop_left]
        simp [parse_expected, hf, hdrop]
  · intro hno
    cases hf : find_substr line pat with
    | some i =>
      exfalso
      obtain ⟨hpref, -⟩ := find_substr_some pat line i hf
      by_cases hi : i ≤ line.length
      · obtain ⟨pre, post, hd, -⟩ := prefix_drop_decomp line pat i hi hpref
        exact hno ⟨pre, post, hd⟩
      · rw [List.drop_eq_nil_of_le (by omega)] at hpref
        have hpat : pat = [] := ( List.prefix_nil).mp hpref
        exact hno ⟨line, [], by simp [hpat]⟩
    | none => simp [parse_expected, hf]

/-- Witness for C7 at a concrete line containing the marker. -/
theorem parse_expected_spec_witness :
    ∃ pre post, (['x', ' ', '/', '/', '~', ' ', 'h', 'i'] : Str) =
        pre ++ (['/', '/', '~'] ++ post) ∧
      (∀ pre2 post2, (['x', ' ', '/', '/', '~', ' ', 'h', 'i'] : Str) =
          pre2 ++ (['/', '/', '~'] ++ post2) → pre.length ≤ pre2.length) ∧
      parse_expected ['x', ' ', '/', '/', '~', ' ', 'h', 'i'] ['/', '/', '~'] =
        some (trim post) :=
  (parse_expected_spec ['x', ' ', '/', '/', '~', ' ', 'h', 'i'] ['/', '/', '~']).1
    ⟨['x', ' '], [' ', 'h', 'i'], rfl⟩

/-! ### Claims about `load_errors` -/

/-- C8 counterexample: a line consisting of the bare marker followed only
by whitespace makes `load_errors` place the empty-string expected message
in the set. -/
theorem load_errors_empty_message_counterexample :
    load_errors [['/', '/', '~', ' ']] = [([] : Str)] ∧
    ([] : Str) ∈ load_errors [['/', '/', '~', ' ']] := by
  constructor
  · decide
  · decide

/-- C8 amended: scanning line by line and collecting, in file order, every
message the parser returns yields the expectation set; a line where the
marker is followed only by whitespace contributes an empty-string
expected message. -/
theorem load_errors_collects_all_parsed (lines more_lines : List Str) :
    load_errors lines =
      (lines.map (fun line => (parse_expected line marker).toList)).flatten ∧
    load_errors (lines ++ more_lines) = load_errors lines ++ load_errors more_lines ∧
    (∀ ws : Str, (∀ c ∈ ws, c.isWhitespace = true) →
      parse_expected (marker ++ ws) marker = some []) := by
  refine ⟨?_, ?_, ?_⟩
  · induction lines with
    | nil => rfl
    | cons l t ih =>
      simp only [load_errors, List.filterMap_cons, List.map_cons, List.flatten_cons] at *
      cases parse_expected l marker with
      | none => simpa using ih
      | some m => simpa using ih
  · simp [load_errors, List.filterMap_append]
  · intro ws hws
    have hpref : marker.isPrefixOf (marker ++ ws) = true :=
      ( List.isPrefixOf_iff_prefix).mpr ⟨ws, rfl⟩
    have hfind : find_substr (marker ++ ws) marker = some 0 := by
      simp only [find_substr, hpref, if_true]
    have hdrop : (marker ++ ws).drop marker.length = ws := List.drop_left marker ws
    have h1 : ws.dropWhile Char.isWhitespace = [] :=
      List.dropWhile_eq_nil_iff.mpr (fun x hx => hws x hx)
    have htrim : trim ws = [] := by simp [trim, h1]
    simp [parse_expected, hfind, hdrop, htrim]

/-- Witness for the amended C8 at a concrete all-whitespace tail. -/
theorem load_errors_collects_all_parsed_witness :
    parse_expected (marker ++ [' ']) marker = some [] :=
  (load_errors_collects_all_parsed [] []).2.2 [' '] (by decide)

/-! ### Claims about the front-end configuration -/

/-- C9 counterexample: the assembled argument list passes three
analyzer-specific `-Z` flags, not two. -/
theorem command_line_arguments_flag_counterexample :
    ((command_line_arguments ("t.rs") ("outdir") ("sysroot")).count ("-Z") = 3) ∧
    ¬ ((command_line_arguments ("t.rs") ("outdir") ("sysroot")).count ("-Z") = 2) := by
  constructor
  · decide
  · decide

/-- Modelled from the spec wording of the amended claim: a fixed argument
list holding the crate name, the input path, output kind "lib", debug-info
level 2, the output directory, the system root, and the three
analyzer-specific flags actually passed (span-free formats, MIR retag
emission, MIR optimization level 0). -/
def spec_command_line (file_name temp_dir_path sys_root : String) : List String :=
  ["--crate-name mirai", file_name, "--crate-type", "lib",
   "-C", "debuginfo=2", "--out-dir", temp_dir_path, "--sysroot", sys_root,
   "-Z", "span_free_formats", "-Z", "mir-emit-retag", "-Z", "mir-opt-level=0"]

/-- C9 amended: for every invocation the assembled configuration is the
fixed 16-element argument list with exactly three analyzer-specific `-Z`
flags beyond the library mode, debug-info, output directory and system
root settings. -/
theorem command_line_arguments_spec (file_name temp_dir_path sys_root : String) :
    command_line_arguments file_name temp_dir_path sys_root =
      spec_command_line file_name temp_dir_path sys_root ∧
    (command_line_arguments file_name temp_dir_path sys_root).length = 16 ∧
    (command_line_arguments file_name temp_dir_path sys_root).drop 10 =
      ["-Z", "span_free_formats", "-Z", "mir-emit-retag", "-Z", "mir-opt-level=0"] :=
  ⟨rfl, rfl, rfl⟩

/-! ### Claims about case discovery -/

theorem discover_cases_spec (dir_path : String) (env : FsEnv) :
    ∀ entries : List DirEntry,
      ((∃ cases, discover_cases dir_path env entries = Except.ok cases) ↔
        ∀ e ∈ entries, e.is_file = true →
          ∃ td, env.new_temp_dir e.file_name = some td ∧
            env.create_dir_ok (td ++ "/" ++ e.file_name) = true) ∧
      (∀ cases, discover_cases dir_path env entries = Except.ok cases →
        cases = (entries.filter (fun e => e.is_file)).map
          (fun e => (dir_path ++ "/" ++ e.file_name,
            temp_dir_of env e.file_name ++ "/" ++ e.file_name))) := by
  intro entries
  induction entries with
  | nil =>
    constructor
    · exact ⟨fun _ e he => absurd he (List.not_mem_nil e), fun _ => ⟨[], rfl⟩⟩
    · intro cases h
      cases h
      rfl
  | cons e rest ih =>
    by_cases hf : e.is_file = true
    · cases htd : env.new_temp_dir e.file_name with
      | none =>
        have hred : discover_cases dir_path env (e :: rest) =
            Except.error SetupError.tempDirFailed := by
          simp [discover_cases, hf, htd]
        constructor
        · rw [hred]
          simp only [List.forall_mem_cons]
          constructor
          · rintro ⟨cases, hc⟩
            cases hc
          · rintro ⟨h1, -⟩
            obtain ⟨td, htd2, -⟩ := h1 hf
            rw [htd] at htd2
            cases htd2
        · intro cases h
          rw [hred] at h
          cases h
      | some td =>
        by_cases hcd : env.create_dir_ok (td ++ "/" ++ e.file_name) = true
        · have hred : discover_cases dir_path env (e :: rest) =
              (discover_cases dir_path env rest).map (fun cs =>
                (dir_path ++ "/" ++ e.file_name, td ++ "/" ++ e.file_name) :: cs) := by
            simp [discover_cases, hf, htd, hcd]
          have htdo : temp_dir_of env e.file_name = td := by
            simp [temp_dir_of, htd]
          constructor
          · rw [hred]
            simp only [List.forall_mem_cons]
            cases hrest : discover_cases dir_path env rest with
            | error err =>
              constructor
              · rintro ⟨cases, hc⟩
                cases hc
              · rintro ⟨-, hall⟩
                obtain ⟨cs, hcs⟩ := ih.1.mpr hall
                rw [hrest] at hcs
                cases hcs
            | ok cs =>
              constructor
              · intro _
                exact ⟨fun _ => ⟨td, htd, hcd⟩, ih.1.mp ⟨cs, hrest⟩⟩
              · intro _
                exact ⟨(dir_path ++ "/" ++ e.file_name, td ++ "/" ++ e.file_name) :: cs, rfl⟩
          · intro cases h
            rw [hred] at h
            cases hrest : discover_cases dir_path env rest with
            | error err =>
              rw [hrest] at h
              cases h
            | ok cs =>
              rw [hrest] at h
              cases h
              simp [hf, htdo, ih.2 cs hrest]
        · have hred : discover_cases dir_path env (e :: rest) =
              Except.error SetupError.createDirFailed := by
            simp [discover_cases, hf, htd, hcd]
          constructor
          · rw [hred]
            simp only [List.forall_mem_cons]
            constructor
            · rintro ⟨cases, hc⟩
              cases hc
            · rintro ⟨h1, -⟩
              obtain ⟨td2, htd2, hcd2⟩ := h1 hf
              rw [htd] at htd2
              cases htd2
              exact (hcd hcd2).elim
          · intro cases h
            rw [hred] at h
            cases h
    · have hf2 : e.is_file = false := by
        cases hb : e.is_file
        · rfl
        · exact absurd hb hf
      have hred : discover_cases dir_path env (e :: rest) =
          discover_cases dir_path env rest := by
        simp [discover_cases, hf2]
      constructor
      · rw [hred]
        simp only [List.forall_mem_cons]
        rw [ih.1]
        constructor
        · intro hall
          exact ⟨fun hc => absurd hc (by simp [hf2]), hall⟩
        · rintro ⟨-, hall⟩
          exact hall
      · intro cases h
        rw [hred] at h
        rw [ih.2 cases h]
        simp [hf2]

/-- C10: the setup phase aborts with a setup error when the directory
cannot be read; otherwise the run succeeds exactly when every immediate
file entry gets its temporary directory and nested output directory, and
on success the cases are exactly the file entries (subdirectories
skipped), each paired with an output directory nested in its temporary
directory and named after the fragment file. -/
theorem run_directory_setup_spec (dir_path : String) (env : FsEnv) :
    (env.read_dir = none →
      run_directory_setup dir_path env = Except.error SetupError.readDirFailed) ∧
    (∀ entries, env.read_dir = some entries →
      ((∃ cases, run_directory_setup dir_path env = Except.ok cases) ↔
        ∀ e ∈ entries, e.is_file = true →
          ∃ td, env.new_temp_dir e.file_name = some td ∧
            env.create_dir_ok (td ++ "/" ++ e.file_name) = true) ∧
      (∀ cases, run_directory_setup dir_path env = Except.ok cases →
        cases = (entries.filter (fun e => e.is_file)).map
          (fun e => (dir_path ++ "/" ++ e.file_name,
            temp_dir_of env e.file_name ++ "/" ++ e.file_name)))) := by
  constructor
  · intro h
    simp [run_directory_setup, h]
  · intro entries h
    have hred : run_directory_setup dir_path env = discover_cases dir_path env entries := by
      simp [run_directory_setup, h]
    rw [hred]
    exact discover_cases_spec dir_path env entries

/-- A file-system environment whose directory read fails. -/
def env_no_read : FsEnv :=
  ⟨none, fun _ => none, fun _ => false⟩

/-- Witness for C10: an unreadable directory aborts the run. -/
theorem run_directory_setup_spec_witness :
    run_directory_setup ("tests") env_no_read = Except.error SetupError.readDirFailed :=
  (run_directory_setup_spec ("tests") env_no_read).1 rfl

end MiraiTests
